import Mathlib

/-!
Verification of the Asset Partitioning & Path Resolution Engine of
`offline-plugin` (`src/index.js`).  The constructor's option processing,
`setAssets` (exclusion filtering, bucket partitioning with literal, glob and
`:rest:` selectors) and `validatePaths` (rewrite + scope normalization) are
embedded as executable Lean functions, and the specification's claims are
settled against them.
-/

set_option autoImplicit false

namespace Offline

/-- Modelled from the spec: shell-glob matching as provided by the external
`minimatch` dependency (the library itself is not part of this repository).
`*` and `?` match any characters except the path separator `/`; all other
characters match literally.  Only the fragment of glob syntax exercised by
the concrete claims (`*`-patterns and literal patterns) is modelled. -/
def globMatchAux : Nat → List Char → List Char → Bool
  | 0, _, _ => false
  | _ + 1, [], [] => true
  | _ + 1, [], _ :: _ => false
  | f + 1, '*' :: ps, [] => globMatchAux f ps []
  | f + 1, '*' :: ps, c :: cs =>
      globMatchAux f ps (c :: cs) || (!(c == '/') && globMatchAux f ('*' :: ps) cs)
  | f + 1, '?' :: ps, c :: cs => !(c == '/') && globMatchAux f ps cs
  | _ + 1, _ :: _, [] => false
  | f + 1, p :: ps, c :: cs => (p == c) && globMatchAux f ps cs

/-- Modelled from the spec: glob matching on strings (`minimatch(candidate,
pattern)`).  Every recursive step of `globMatchAux` shrinks the combined
length of pattern and candidate, so a fuel of `length + length + 1` is never
exhausted; the fuel merely makes the recursion structural. -/
def globMatch (pat s : String) : Bool :=
  globMatchAux (pat.data.length + s.data.length + 1) pat.data s.data

/-- Modelled from the spec: the glob metacharacters recognized by
`misc/has-magic` (a repository file outside `src/`): a pattern containing
none of them "degenerates to an exact-equality literal selector". -/
def magicChars : List Char :=
  ['*', '?', '[', ']', '\x7b', '\x7d', '(', ')', '!', '+', '@']

/-- Modelled from the spec: whether a selector contains glob metacharacters. -/
def hasMagicChars (p : String) : Bool :=
  p.data.any (fun c => magicChars.contains c)

/-- Interface of the glob library as used by `setAssets`:
`hasMagic` (`misc/has-magic`) returns a matcher for patterns with glob magic
and `none` for literal selectors; `mmatch asset pat` is `minimatch(asset, pat)`.
The partitioning theorems are proved for an arbitrary `GlobLib`. -/
structure GlobLib where
  hasMagic : String → Option (String → Bool)
  mmatch : String → String → Bool

/-- Modelled from the spec: the concrete glob library used for the concrete
test-vector claims (`misc/has-magic` + `minimatch` live outside `src/`). -/
def miniGlob : GlobLib where
  hasMagic p := if hasMagicChars p then some (fun s => globMatch p s) else none
  mmatch asset pat := globMatch pat asset

/-- The `rewrites` option is either a function from asset to replacement
(empty string = drop) or a literal lookup table (src/index.js lines 61-83). -/
inductive RewriteRule where
  | fn (f : String → String)
  | table (t : List (String × String))

/-- A bucket specification: `caches[key]` for the three fixed keys.
`none` models an absent or non-array value (treated as `[]` by
`Array.isArray(caches[key]) ? caches[key] : []`, src/index.js line 179). -/
structure CacheSpec where
  main : Option (List String)
  additional : Option (List String)
  optional : Option (List String)
deriving DecidableEq

/-- The `caches` option: the string `'all'` (Simplified Mode) or a bucket
specification object (src/index.js line 152, 169). -/
inductive CachesOpt where
  | all
  | spec (c : CacheSpec)

/-- The merged options object (`deepExtend({}, defaultOptions, options)`).
`externalsArr`/`excludesArr` use `none` for a non-array value;
`rewrites = none` models a falsy value (replaced by the default rewrite);
`serviceWorker`/`appCache` record whether the corresponding tool option is
not `null`/`false` (src/index.js lines 273-281). -/
structure Options where
  caches : CachesOpt
  scope : String
  updateStrategy : String
  externalsArr : Option (List String)
  excludesArr : Option (List String)
  relativePaths : Bool
  rewrites : Option RewriteRule
  serviceWorker : Bool
  appCache : Bool

/-- The `updateStrategies` enumeration (src/index.js line 11). -/
def updateStrategies : List String := ["all", "hash", "changed"]

deriving instance DecidableEq for Except

/-- The remainder sentinel `this.REST_KEY` (src/index.js line 85). -/
def restKey : String := ":rest:"

/-- The internal entry prefix `this.entryPrefix` (src/index.js line 86). -/
def entryPfx : String := "__offline_"

/-- Whether `s` starts with `pre`, i.e. `s.indexOf(pre) === 0`. -/
def startsWithPfx (pre s : String) : Bool :=
  s.data.take pre.data.length == pre.data

/-- Strip one trailing `/`: `s.replace(/\/$/, '')` (src/index.js line 51). -/
def stripTrailingSlash (s : String) : String :=
  match s.data.getLast? with
  | some '/' => String.mk s.data.dropLast
  | _ => s

/-- Strip one leading `/`: `key.replace(/^\//, '')` (src/index.js lines 254, 257). -/
def stripLeadingSlash (s : String) : String :=
  match s.data with
  | '/' :: cs => String.mk cs
  | _ => s

/-- Tests whether nine characters are `index` + any character + `htm`,
i.e. the body of the anchored regex `^([\s\S]*?)index.htm(l?)$` after the
lazy group (the regex `.` matches any character). -/
def isIndexHtmTail (cs : List Char) : Bool :=
  cs.length == 9 && cs.take 5 == "index".data && cs.drop 6 == "htm".data

/-- The default `rewrites` option (src/index.js lines 22-26):
`asset.replace(/^([\s\S]*?)index.htm(l?)$/, (match, dir) => dir || '/')`.
Both anchors are present, so the regex matches iff the asset ends with the
nine-character tail `index.htm` (`.` = any char) optionally followed by `l`;
the lazy group takes the shortest prefix, so the `...l` alternative (smaller
prefix) is preferred when both fit.  An empty prefix (falsy `dir`) yields `/`. -/
def defaultRewrite (asset : String) : String :=
  let cs := asset.data
  let n := cs.length
  if 10 ≤ n && isIndexHtmTail ((cs.drop (n - 10)).take 9) && (cs.drop (n - 1) == ['l']) then
    if n == 10 then "/" else String.mk (cs.take (n - 10))
  else if 9 ≤ n && isIndexHtmTail (cs.drop (n - 9)) then
    if n == 9 then "/" else String.mk (cs.take (n - 9))
  else asset

/-- The default options object (src/index.js lines 12-39), restricted to the
fields consumed by the engine. -/
def defaultOptions : Options where
  caches := CachesOpt.all
  scope := "/"
  updateStrategy := "all"
  externalsArr := some []
  excludesArr := some []
  relativePaths := false
  rewrites := none
  serviceWorker := true
  appCache := true

/-- The configuration state of the plugin after the constructor ran
(src/index.js lines 42-95). -/
structure PluginCfg where
  scope : String
  relativePaths : Bool
  externals : List String
  rewrites : RewriteRule
  caches : CachesOpt
  excludesArr : Option (List String)

/-- Fatal message `Update strategy must be one of ...` (src/index.js line 54). -/
def strategyErr : String := "Update strategy must be one of [all,hash,changed]"

/-- src/index.js line 93. -/
def toolsErr : String := "You should have at least one cache service to be specified"

/-- src/index.js line 187. -/
def restErr : String := "The :rest: keyword can be used only once"

/-- src/index.js line 210. -/
def patternWarning (ck : String) : String :=
  "OfflinePlugin: Cache pattern [" ++ ck ++ "] did not matched any assets"

/-- src/index.js line 225. -/
def assetWarning (ck : String) : String :=
  "OfflinePlugin: Cache asset [" ++ ck ++ "] is not found in output assets"

/-- The constructor (src/index.js lines 42-95): computes relative-path mode
(`!this.scope || this.options.relativePaths`) and the normalized scope
(`this.scope.replace(/\/$/, '') + '/'`), validates the update strategy,
replaces a non-array `externals` by `[]`, selects the rewrite rule
(`this.options.rewrites || defaultOptions.rewrites`) and requires at least
one cache tool.  Throws are modelled by `Except.error`. -/
def mkPlugin (o : Options) : Except String PluginCfg :=
  let relativePaths := (o.scope == "") || o.relativePaths
  let scope := if relativePaths then "" else stripTrailingSlash o.scope ++ "/"
  if !(updateStrategies.contains o.updateStrategy) then
    .error strategyErr
  else
    let externals := o.externalsArr.getD []
    let rewrites := o.rewrites.getD (RewriteRule.fn defaultRewrite)
    if !(o.serviceWorker || o.appCache) then
      .error toolsErr
    else
      .ok ⟨scope, relativePaths, externals, rewrites, o.caches, o.excludesArr⟩

/-- Embeds `this.rewrite` (src/index.js lines 63-83): assets carrying the internal
entry prefix rewrite to the empty string; otherwise the user function is
applied, or for a table, a missing key passes through unchanged. -/
def rewriteAsset (cfg : PluginCfg) (asset : String) : String :=
  if startsWithPfx entryPfx asset then ""
  else
    match cfg.rewrites with
    | .fn f => f asset
    | .table t =>
      match t.lookup asset with
      | none => asset
      | some v => v

/-- The normalization step of `validatePaths` (src/index.js lines 252-258):
strip one leading `/`; in relative mode return it, otherwise prepend the scope. -/
def normalizePath (cfg : PluginCfg) (key : String) : String :=
  if cfg.relativePaths then stripLeadingSlash key
  else cfg.scope ++ stripLeadingSlash key

/-- Embeds `validatePaths` (src/index.js lines 248-259): rewrite each asset, drop
falsy (empty) results, normalize the rest. -/
def validatePaths (cfg : PluginCfg) (assets : List String) : List String :=
  ((assets.map (rewriteAsset cfg)).filter (fun a => !a.isEmpty)).map (normalizePath cfg)

/-- The mutable state of one `setAssets` run: the remaining asset pool
(the spliced `assets` array), the recorded `restSection`, and
`compilation.warnings`. -/
structure PartState where
  pool : List String
  restSection : Option String
  warnings : List String
deriving DecidableEq

/-- The glob scan loop (src/index.js lines 199-206): walk the pool in order,
collect every asset the matcher accepts and splice it out. -/
def scanPool (m : String → Bool) : List String → List String × List String
  | [] => ([], [])
  | a :: rest =>
    if m a then (a :: (scanPool m rest).1, (scanPool m rest).2)
    else ((scanPool m rest).1, a :: (scanPool m rest).2)

/-- One selector step of the `cache.some` callback (src/index.js lines 184-232):
`:rest:` records the bucket (fatal if already recorded); a magic pattern
claims all matching pool assets (warning if none matched); a literal claims
its pool occurrence, or — when absent — is exempted by a non-empty externals
list or warned about, and is appended to the bucket result either way. -/
def applySelector (g : GlobLib) (cfg : PluginCfg) (key : String) (st : PartState)
    (acc : List String) (ck : String) : Except String (List String × PartState) :=
  if ck = restKey then
    match st.restSection with
    | some _ => .error restErr
    | none => .ok (acc, { st with restSection := some key })
  else
    match g.hasMagic ck with
    | some magic =>
      let r := scanPool magic st.pool
      let warns :=
        if r.1.isEmpty then st.warnings ++ [patternWarning ck] else st.warnings
      .ok (acc ++ r.1, { st with pool := r.2, warnings := warns })
    | none =>
      if ck ∈ st.pool then
        .ok (acc ++ [ck], { st with pool := st.pool.erase ck })
      else
        let warns :=
          if cfg.externals ≠ [] ∧ ck ∈ cfg.externals then st.warnings
          else st.warnings ++ [assetWarning ck]
        .ok (acc ++ [ck], { st with warnings := warns })

/-- Embeds `cache.some((cacheKey) => ...)` (src/index.js lines 184-232): every
callback branch returns `undefined`, so the traversal never short-circuits;
the only way out is the duplicate-`:rest:` throw. -/
def processSelectors (g : GlobLib) (cfg : PluginCfg) (key : String) :
    List String → List String → PartState → Except String (List String × PartState)
  | [], acc, st => .ok (acc, st)
  | ck :: sels, acc, st =>
    match applySelector g cfg key st acc ck with
    | .error e => .error e
    | .ok (acc1, st1) => processSelectors g cfg key sels acc1 st1

/-- The fixed bucket order `['main', 'additional', 'optional']` paired with
their entries of the specification (src/index.js lines 176-178). -/
def specPairs (c : CacheSpec) : List (String × Option (List String)) :=
  [("main", c.main), ("additional", c.additional), ("optional", c.optional)]

/-- The `reduce` over the bucket keys (src/index.js lines 176-237): a bucket
whose entry is absent/non-array or empty is skipped (`if (!cache.length)
return result`), otherwise its selectors run against the shared pool and the
validated bucket result is recorded under its key. -/
def reduceCaches (g : GlobLib) (cfg : PluginCfg) :
    List (String × Option (List String)) → PartState →
    Except String (List (String × List String) × PartState)
  | [], st => .ok ([], st)
  | p :: ks, st =>
    let cache := p.2.getD []
    if cache.isEmpty then reduceCaches g cfg ks st
    else
      match processSelectors g cfg p.1 cache [] st with
      | .error e => .error e
      | .ok (res, st1) =>
        match reduceCaches g cfg ks st1 with
        | .error e => .error e
        | .ok (tail, st2) => .ok ((p.1, validatePaths cfg res) :: tail, st2)

/-- The same fold with the bucket contents kept raw (before
rewrite/normalization), i.e. the `cacheResult` arrays of src/index.js
line 180 as they stand before the `validatePaths` call of line 234.  Used to
state the partitioning invariants the spec phrases "before
rewrite/normalization". -/
def reduceCachesRaw (g : GlobLib) (cfg : PluginCfg) :
    List (String × Option (List String)) → PartState →
    Except String (List (String × List String) × PartState)
  | [], st => .ok ([], st)
  | p :: ks, st =>
    let cache := p.2.getD []
    if cache.isEmpty then reduceCachesRaw g cfg ks st
    else
      match processSelectors g cfg p.1 cache [] st with
      | .error e => .error e
      | .ok (res, st1) =>
        match reduceCachesRaw g cfg ks st1 with
        | .error e => .error e
        | .ok (tail, st2) => .ok ((p.1, res) :: tail, st2)

/-- Embeds `handledCaches[restSection] = handledCaches[restSection].concat(v)`
(src/index.js lines 240-241): concatenate onto the entry with key `k`.  The
key recorded in `restSection` is always present in `handledCaches`, since it
was recorded while that bucket's non-empty selector list was being processed. -/
def assocConcat (l : List (String × List String)) (k : String) (v : List String) :
    List (String × List String) :=
  l.map (fun p => if p.1 = k then (p.1, p.2 ++ v) else p)

/-- The exclusion filter (src/index.js lines 153-165): applied only when
`excludes` is a non-empty array; keeps assets matching none of the globs. -/
def applyExcludes (g : GlobLib) (ex : Option (List String)) (assets : List String) :
    List String :=
  match ex with
  | some excludes =>
    if excludes.isEmpty then assets
    else assets.filter (fun asset => !(excludes.any (fun pat => g.mmatch asset pat)))
  | none => assets

/-- Embeds `setAssets` (src/index.js lines 151-246): filter excluded assets; in
Simplified Mode put everything (validated) into `main`; otherwise run the
bucket fold and, when a `:rest:` target was recorded and assets remain,
concatenate the validated remainder onto that bucket. -/
def setAssets (g : GlobLib) (cfg : PluginCfg) (assets0 : List String) :
    Except String (List (String × List String) × PartState) :=
  let assets := applyExcludes g cfg.excludesArr assets0
  match cfg.caches with
  | .all => .ok ([("main", validatePaths cfg assets)], ⟨assets, none, []⟩)
  | .spec c =>
    match reduceCaches g cfg (specPairs c) ⟨assets, none, []⟩ with
    | .error e => .error e
    | .ok (handled, st) =>
      match st.restSection with
      | some rk =>
        if st.pool.isEmpty then .ok (handled, st)
        else .ok (assocConcat handled rk (validatePaths cfg st.pool), st)
      | none => .ok (handled, st)

/-- Variant of `setAssets` with the bucket contents kept raw (before the
`validatePaths` calls), the form in which invariants I1/I2 are stated. -/
def partitionRaw (g : GlobLib) (cfg : PluginCfg) (assets0 : List String) :
    Except String (List (String × List String) × PartState) :=
  let assets := applyExcludes g cfg.excludesArr assets0
  match cfg.caches with
  | .all => .ok ([("main", assets)], ⟨assets, none, []⟩)
  | .spec c =>
    match reduceCachesRaw g cfg (specPairs c) ⟨assets, none, []⟩ with
    | .error e => .error e
    | .ok (handled, st) =>
      match st.restSection with
      | some rk =>
        if st.pool.isEmpty then .ok (handled, st)
        else .ok (assocConcat handled rk st.pool, st)
      | none => .ok (handled, st)

/-- Project a partition result to its bucket map. -/
def cachesOf (r : Except String (List (String × List String) × PartState)) :
    Except String (List (String × List String)) :=
  r.map (fun p => p.1)

/-- All selectors of a bucket specification, in bucket order (absent or
non-array entries contribute nothing). -/
def allSels (c : CacheSpec) : List String :=
  c.main.getD [] ++ c.additional.getD [] ++ c.optional.getD []

/-- The selector list a given bucket key contributes. -/
def selsOf (c : CacheSpec) (key : String) : List String :=
  if key = "main" then c.main.getD []
  else if key = "additional" then c.additional.getD []
  else if key = "optional" then c.optional.getD []
  else []

/-- Total number of `:rest:` selectors contributed by a list of bucket entries. -/
def totalRest (ks : List (String × Option (List String))) : Nat :=
  (ks.map (fun p => (p.2.getD []).count restKey)).sum

/-- One when a `:rest:` target has been recorded, else zero. -/
def restCredit (st : PartState) : Nat :=
  if st.restSection.isSome then 1 else 0

theorem scanPool_count (m : String → Bool) (a : String) (l : List String) :
    ((scanPool m l).1).count a + ((scanPool m l).2).count a = l.count a := by
  induction l with
  | nil => simp [scanPool]
  | cons hd tl ih =>
    simp only [scanPool]
    split <;> simp only [List.count_cons] <;> omega

theorem scanPool_fst_mem (m : String → Bool) (l : List String) :
    ∀ x, x ∈ (scanPool m l).1 → x ∈ l := by
  induction l with
  | nil => intro x h; simp [scanPool] at h
  | cons hd tl ih =>
    intro x h
    simp only [scanPool] at h
    split at h
    · rcases List.mem_cons.mp h with h | h
      · exact h ▸ List.mem_cons_self _ _
      · exact List.mem_cons_of_mem _ (ih x h)
    · exact List.mem_cons_of_mem _ (ih x h)

theorem scanPool_snd_mem (m : String → Bool) (l : List String) :
    ∀ x, x ∈ (scanPool m l).2 → x ∈ l := by
  induction l with
  | nil => intro x h; simp [scanPool] at h
  | cons hd tl ih =>
    intro x h
    simp only [scanPool] at h
    split at h
    · exact List.mem_cons_of_mem _ (ih x h)
    · rcases List.mem_cons.mp h with h | h
      · exact h ▸ List.mem_cons_self _ _
      · exact List.mem_cons_of_mem _ (ih x h)

/-- Complete case analysis of one selector step. -/
theorem applySelector_cases (g : GlobLib) (cfg : PluginCfg) (key : String)
    (st : PartState) (acc : List String) (ck : String) :
    (ck = restKey ∧ st.restSection = none ∧
      applySelector g cfg key st acc ck = .ok (acc, { st with restSection := some key })) ∨
    (ck = restKey ∧ st.restSection ≠ none ∧
      applySelector g cfg key st acc ck = .error restErr) ∨
    (∃ magic, ck ≠ restKey ∧ g.hasMagic ck = some magic ∧
      applySelector g cfg key st acc ck =
        .ok (acc ++ (scanPool magic st.pool).1,
             { st with pool := (scanPool magic st.pool).2,
                       warnings := if ((scanPool magic st.pool).1).isEmpty
                                   then st.warnings ++ [patternWarning ck]
                                   else st.warnings })) ∨
    (ck ≠ restKey ∧ g.hasMagic ck = none ∧ ck ∈ st.pool ∧
      applySelector g cfg key st acc ck =
        .ok (acc ++ [ck], { st with pool := st.pool.erase ck })) ∨
    (ck ≠ restKey ∧ g.hasMagic ck = none ∧ ck ∉ st.pool ∧
      applySelector g cfg key st acc ck =
        .ok (acc ++ [ck],
             { st with warnings := if cfg.externals ≠ [] ∧ ck ∈ cfg.externals
                                   then st.warnings
                                   else st.warnings ++ [assetWarning ck] })) := by
  by_cases hck : ck = restKey
  · cases hrs : st.restSection with
    | none =>
      exact Or.inl ⟨hck, rfl, by unfold applySelector; rw [if_pos hck, hrs]⟩
    | some r =>
      refine Or.inr (Or.inl ⟨hck, by simp, ?_⟩)
      unfold applySelector; rw [if_pos hck, hrs]
  · cases hm : g.hasMagic ck with
    | some magic =>
      refine Or.inr (Or.inr (Or.inl ⟨magic, hck, rfl, ?_⟩))
      unfold applySelector; rw [if_neg hck, hm]
    | none =>
      by_cases hp : ck ∈ st.pool
      · refine Or.inr (Or.inr (Or.inr (Or.inl ⟨hck, rfl, hp, ?_⟩)))
        unfold applySelector; rw [if_neg hck, hm, if_pos hp]
      · refine Or.inr (Or.inr (Or.inr (Or.inr ⟨hck, rfl, hp, ?_⟩)))
        unfold applySelector; rw [if_neg hck, hm, if_neg hp]

theorem applySelector_error_elim {g : GlobLib} {cfg : PluginCfg} {key : String}
    {st : PartState} {acc : List String} {ck : String} {e : String}
    (h : applySelector g cfg key st acc ck = .error e) :
    e = restErr ∧ ck = restKey ∧ st.restSection ≠ none := by
  rcases applySelector_cases g cfg key st acc ck with
    ⟨h1, h2, h3⟩ | ⟨h1, h2, h3⟩ | ⟨m, h1, h2, h3⟩ | ⟨h1, h2, hp, h3⟩ | ⟨h1, h2, hp, h3⟩ <;>
      rw [h3] at h
  · cases h
  · cases h; exact ⟨rfl, h1, h2⟩
  · cases h
  · cases h
  · cases h

theorem applySelector_count {g : GlobLib} {cfg : PluginCfg} {key : String}
    {st : PartState} {acc : List String} {ck : String}
    {acc1 : List String} {st1 : PartState} {a : String}
    (h : applySelector g cfg key st acc ck = .ok (acc1, st1)) (hne : a ≠ ck) :
    st1.pool.count a + acc1.count a = st.pool.count a + acc.count a := by
  rcases applySelector_cases g cfg key st acc ck with
    ⟨h1, h2, h3⟩ | ⟨h1, h2, h3⟩ | ⟨m, h1, h2, h3⟩ | ⟨h1, h2, hp, h3⟩ | ⟨h1, h2, hp, h3⟩ <;>
      rw [h3] at h <;> cases h
  · rfl
  · have := scanPool_count m a st.pool
    simp only [List.count_append]
    omega
  · have herase : (st.pool.erase ck).count a = st.pool.count a :=
      List.count_erase_of_ne hne _
    simp [List.count_append, List.count_cons, hne, herase]
  · simp [List.count_append, List.count_cons, hne]

theorem applySelector_mem_acc {g : GlobLib} {cfg : PluginCfg} {key : String}
    {st : PartState} {acc : List String} {ck : String}
    {acc1 : List String} {st1 : PartState} {x : String}
    (h : applySelector g cfg key st acc ck = .ok (acc1, st1)) (hx : x ∈ acc1) :
    x ∈ acc ∨ x ∈ st.pool ∨ x = ck := by
  rcases applySelector_cases g cfg key st acc ck with
    ⟨h1, h2, h3⟩ | ⟨h1, h2, h3⟩ | ⟨m, h1, h2, h3⟩ | ⟨h1, h2, hp, h3⟩ | ⟨h1, h2, hp, h3⟩ <;>
      rw [h3] at h <;> cases h
  · exact Or.inl hx
  · rcases List.mem_append.mp hx with h | h
    · exact Or.inl h
    · exact Or.inr (Or.inl (scanPool_fst_mem m st.pool x h))
  · rcases List.mem_append.mp hx with h | h
    · exact Or.inl h
    · exact Or.inr (Or.inr (List.mem_singleton.mp h))
  · rcases List.mem_append.mp hx with h | h
    · exact Or.inl h
    · exact Or.inr (Or.inr (List.mem_singleton.mp h))

theorem applySelector_pool_mem {g : GlobLib} {cfg : PluginCfg} {key : String}
    {st : PartState} {acc : List String} {ck : String}
    {acc1 : List String} {st1 : PartState} {x : String}
    (h : applySelector g cfg key st acc ck = .ok (acc1, st1)) (hx : x ∈ st1.pool) :
    x ∈ st.pool := by
  rcases applySelector_cases g cfg key st acc ck with
    ⟨h1, h2, h3⟩ | ⟨h1, h2, h3⟩ | ⟨m, h1, h2, h3⟩ | ⟨h1, h2, hp, h3⟩ | ⟨h1, h2, hp, h3⟩ <;>
      rw [h3] at h <;> cases h
  · exact hx
  · exact scanPool_snd_mem m st.pool x hx
  · exact List.mem_of_mem_erase hx
  · exact hx

theorem applySelector_rest_mono {g : GlobLib} {cfg : PluginCfg} {key : String}
    {st : PartState} {acc : List String} {ck : String}
    {acc1 : List String} {st1 : PartState} {r : String}
    (h : applySelector g cfg key st acc ck = .ok (acc1, st1))
    (hr : st.restSection = some r) :
    st1.restSection = some r := by
  rcases applySelector_cases g cfg key st acc ck with
    ⟨h1, h2, h3⟩ | ⟨h1, h2, h3⟩ | ⟨m, h1, h2, h3⟩ | ⟨h1, h2, hp, h3⟩ | ⟨h1, h2, hp, h3⟩ <;>
      rw [h3] at h
  · rw [hr] at h2; cases h2
  · cases h
  · cases h; exact hr
  · cases h; exact hr
  · cases h; exact hr

theorem applySelector_rest_pres {g : GlobLib} {cfg : PluginCfg} {key : String}
    {st : PartState} {acc : List String} {ck : String}
    {acc1 : List String} {st1 : PartState}
    (h : applySelector g cfg key st acc ck = .ok (acc1, st1)) (hck : ck ≠ restKey) :
    st1.restSection = st.restSection := by
  rcases applySelector_cases g cfg key st acc ck with
    ⟨h1, h2, h3⟩ | ⟨h1, h2, h3⟩ | ⟨m, h1, h2, h3⟩ | ⟨h1, h2, hp, h3⟩ | ⟨h1, h2, hp, h3⟩ <;>
      rw [h3] at h
  · exact absurd h1 hck
  · cases h
  · cases h; rfl
  · cases h; rfl
  · cases h; rfl

theorem applySelector_ne_rest_ok {g : GlobLib} {cfg : PluginCfg} {key : String}
    {st : PartState} {acc : List String} {ck : String}
    (hck : ck ≠ restKey) :
    ∃ acc1 st1, applySelector g cfg key st acc ck = .ok (acc1, st1) := by
  cases h : applySelector g cfg key st acc ck with
  | error e => exact absurd (applySelector_error_elim h).2.1 hck
  | ok p =>
    obtain ⟨a1, s1⟩ := p
    exact ⟨a1, s1, rfl⟩

theorem applySelector_rest_set {g : GlobLib} {cfg : PluginCfg} {key : String}
    {st : PartState} {acc : List String}
    {acc1 : List String} {st1 : PartState}
    (h : applySelector g cfg key st acc restKey = .ok (acc1, st1)) :
    st1.restSection = some key := by
  rcases applySelector_cases g cfg key st acc restKey with
    ⟨h1, h2, h3⟩ | ⟨h1, h2, h3⟩ | ⟨m, h1, h2, h3⟩ | ⟨h1, h2, hp, h3⟩ | ⟨h1, h2, hp, h3⟩ <;>
      rw [h3] at h
  · cases h; rfl
  · cases h
  · exact absurd rfl h1
  · exact absurd rfl h1
  · exact absurd rfl h1

theorem processSelectors_error_elim {g : GlobLib} {cfg : PluginCfg} {key : String} :
    ∀ (sels : List String) {acc : List String} {st : PartState} {e : String},
      processSelectors g cfg key sels acc st = .error e → e = restErr := by
  intro sels
  induction sels with
  | nil =>
    intro acc st e h
    simp [processSelectors] at h
  | cons ck sels ih =>
    intro acc st e h
    cases happ : applySelector g cfg key st acc ck with
    | error e2 =>
      simp only [processSelectors, happ] at h
      cases h
      exact (applySelector_error_elim happ).1
    | ok p =>
      obtain ⟨acc1, st1⟩ := p
      simp only [processSelectors, happ] at h
      exact ih h

theorem processSelectors_count {g : GlobLib} {cfg : PluginCfg} {key : String} (a : String) :
    ∀ (sels : List String) {acc : List String} {st : PartState}
      {res : List String} {st' : PartState},
      processSelectors g cfg key sels acc st = .ok (res, st') → a ∉ sels →
      st'.pool.count a + res.count a = st.pool.count a + acc.count a := by
  intro sels
  induction sels with
  | nil =>
    intro acc st res st' h _
    simp only [processSelectors, Except.ok.injEq, Prod.mk.injEq] at h
    obtain ⟨h1, h2⟩ := h
    subst h1; subst h2; rfl
  | cons ck sels ih =>
    intro acc st res st' h hnot
    rw [List.mem_cons] at hnot
    push_neg at hnot
    obtain ⟨hne, hnot⟩ := hnot
    cases happ : applySelector g cfg key st acc ck with
    | error e2 => simp [processSelectors, happ] at h
    | ok p =>
      obtain ⟨acc1, st1⟩ := p
      simp only [processSelectors, happ] at h
      have h1 := applySelector_count happ hne
      have h2 := ih h hnot
      omega

theorem processSelectors_mem {g : GlobLib} {cfg : PluginCfg} {key : String} :
    ∀ (sels : List String) {acc : List String} {st : PartState}
      {res : List String} {st' : PartState} {x : String},
      processSelectors g cfg key sels acc st = .ok (res, st') → x ∈ res →
      x ∈ acc ∨ x ∈ st.pool ∨ x ∈ sels := by
  intro sels
  induction sels with
  | nil =>
    intro acc st res st' x h hx
    simp only [processSelectors, Except.ok.injEq, Prod.mk.injEq] at h
    exact Or.inl (h.1 ▸ hx)
  | cons ck sels ih =>
    intro acc st res st' x h hx
    cases happ : applySelector g cfg key st acc ck with
    | error e2 => simp [processSelectors, happ] at h
    | ok p =>
      obtain ⟨acc1, st1⟩ := p
      simp only [processSelectors, happ] at h
      rcases ih h hx with h1 | h1 | h1
      · rcases applySelector_mem_acc happ h1 with h2 | h2 | h2
        · exact Or.inl h2
        · exact Or.inr (Or.inl h2)
        · exact Or.inr (Or.inr (h2 ▸ List.mem_cons_self _ _))
      · exact Or.inr (Or.inl (applySelector_pool_mem happ h1))
      · exact Or.inr (Or.inr (List.mem_cons_of_mem _ h1))

theorem processSelectors_pool {g : GlobLib} {cfg : PluginCfg} {key : String} :
    ∀ (sels : List String) {acc : List String} {st : PartState}
      {res : List String} {st' : PartState} {x : String},
      processSelectors g cfg key sels acc st = .ok (res, st') → x ∈ st'.pool →
      x ∈ st.pool := by
  intro sels
  induction sels with
  | nil =>
    intro acc st res st' x h hx
    simp only [processSelectors, Except.ok.injEq, Prod.mk.injEq] at h
    exact h.2 ▸ hx
  | cons ck sels ih =>
    intro acc st res st' x h hx
    cases happ : applySelector g cfg key st acc ck with
    | error e2 => simp [processSelectors, happ] at h
    | ok p =>
      obtain ⟨acc1, st1⟩ := p
      simp only [processSelectors, happ] at h
      exact applySelector_pool_mem happ (ih h hx)

theorem processSelectors_rest_mono {g : GlobLib} {cfg : PluginCfg} {key : String} :
    ∀ (sels : List String) {acc : List String} {st : PartState}
      {res : List String} {st' : PartState} {r : String},
      processSelectors g cfg key sels acc st = .ok (res, st') →
      st.restSection = some r → st'.restSection = some r := by
  intro sels
  induction sels with
  | nil =>
    intro acc st res st' r h hr
    simp only [processSelectors, Except.ok.injEq, Prod.mk.injEq] at h
    exact h.2 ▸ hr
  | cons ck sels ih =>
    intro acc st res st' r h hr
    cases happ : applySelector g cfg key st acc ck with
    | error e2 => simp [processSelectors, happ] at h
    | ok p =>
      obtain ⟨acc1, st1⟩ := p
      simp only [processSelectors, happ] at h
      exact ih h (applySelector_rest_mono happ hr)

theorem processSelectors_rest_pres {g : GlobLib} {cfg : PluginCfg} {key : String} :
    ∀ (sels : List String) {acc : List String} {st : PartState}
      {res : List String} {st' : PartState},
      processSelectors g cfg key sels acc st = .ok (res, st') →
      restKey ∉ sels → st'.restSection = st.restSection := by
  intro sels
  induction sels with
  | nil =>
    intro acc st res st' h _
    simp only [processSelectors, Except.ok.injEq, Prod.mk.injEq] at h
    exact h.2 ▸ rfl
  | cons ck sels ih =>
    intro acc st res st' h hnot
    rw [List.mem_cons] at hnot
    push_neg at hnot
    obtain ⟨hne, hnot⟩ := hnot
    cases happ : applySelector g cfg key st acc ck with
    | error e2 => simp [processSelectors, happ] at h
    | ok p =>
      obtain ⟨acc1, st1⟩ := p
      simp only [processSelectors, happ] at h
      rw [ih h hnot]
      exact applySelector_rest_pres happ (fun hh => hne hh.symm)

theorem processSelectors_rest_set {g : GlobLib} {cfg : PluginCfg} {key : String} :
    ∀ (sels : List String) {acc : List String} {st : PartState}
      {res : List String} {st' : PartState},
      processSelectors g cfg key sels acc st = .ok (res, st') →
      restKey ∈ sels → st'.restSection.isSome = true := by
  intro sels
  induction sels with
  | nil => intro acc st res st' _ hmem; cases hmem
  | cons ck sels ih =>
    intro acc st res st' h hmem
    cases happ : applySelector g cfg key st acc ck with
    | error e2 => simp [processSelectors, happ] at h
    | ok p =>
      obtain ⟨acc1, st1⟩ := p
      simp only [processSelectors, happ] at h
      rcases List.mem_cons.mp hmem with hck | hmem2
      · have hset : st1.restSection = some key := by
          subst hck
          exact applySelector_rest_set happ
        rw [processSelectors_rest_mono sels h hset]
        rfl
      · exact ih h hmem2

theorem processSelectors_dup_err {g : GlobLib} {cfg : PluginCfg} {key : String} :
    ∀ (sels : List String) {acc : List String} {st : PartState} {r : String},
      st.restSection = some r → restKey ∈ sels →
      processSelectors g cfg key sels acc st = .error restErr := by
  intro sels
  induction sels with
  | nil => intro acc st r _ hmem; cases hmem
  | cons ck sels ih =>
    intro acc st r hsome hmem
    by_cases hck : ck = restKey
    · subst hck
      rcases applySelector_cases g cfg key st acc restKey with
        ⟨h1, h2, h3⟩ | ⟨h1, h2, h3⟩ | ⟨m, h1, h2, h3⟩ | ⟨h1, h2, hp, h3⟩ | ⟨h1, h2, hp, h3⟩
      · rw [hsome] at h2; cases h2
      · simp only [processSelectors, h3]
      · exact absurd rfl h1
      · exact absurd rfl h1
      · exact absurd rfl h1
    · obtain ⟨acc1, st1, happ⟩ := @applySelector_ne_rest_ok g cfg key st acc ck hck
      simp only [processSelectors, happ]
      have hmem2 : restKey ∈ sels := by
        rcases List.mem_cons.mp hmem with hh | hh
        · exact absurd hh.symm hck
        · exact hh
      exact ih (applySelector_rest_mono happ hsome) hmem2

theorem processSelectors_two_err {g : GlobLib} {cfg : PluginCfg} {key : String} :
    ∀ (sels : List String) {acc : List String} {st : PartState},
      2 ≤ sels.count restKey →
      processSelectors g cfg key sels acc st = .error restErr := by
  intro sels
  induction sels with
  | nil => intro acc st h; simp at h
  | cons ck sels ih =>
    intro acc st h2
    by_cases hck : ck = restKey
    · subst hck
      rcases applySelector_cases g cfg key st acc restKey with
        ⟨h1, hrs, h3⟩ | ⟨h1, hrs, h3⟩ | ⟨m, h1, hm, h3⟩ | ⟨h1, hm, hp, h3⟩ | ⟨h1, hm, hp, h3⟩
      · simp only [processSelectors, h3]
        have hcount : 1 ≤ sels.count restKey := by
          rw [List.count_cons_self] at h2
          omega
        have hmem : restKey ∈ sels := by
          by_contra hnm
          rw [List.count_eq_zero_of_not_mem hnm] at hcount
          omega
        exact @processSelectors_dup_err g cfg key sels acc
          { st with restSection := some key } key rfl hmem
      · simp only [processSelectors, h3]
      · exact absurd rfl h1
      · exact absurd rfl h1
      · exact absurd rfl h1
    · obtain ⟨acc1, st1, happ⟩ := @applySelector_ne_rest_ok g cfg key st acc ck hck
      simp only [processSelectors, happ]
      apply ih
      simp only [List.count_cons] at h2
      have hb : (ck == restKey) = false := beq_eq_false_iff_ne.mpr hck
      simp [hb] at h2
      omega

theorem totalRest_cons (p : String × Option (List String))
    (ks : List (String × Option (List String))) :
    totalRest (p :: ks) = (p.2.getD []).count restKey + totalRest ks := by
  simp [totalRest]

theorem restCredit_le_one (st : PartState) : restCredit st ≤ 1 := by
  unfold restCredit
  split <;> omega

theorem restCredit_of_some {st : PartState} {r : String}
    (h : st.restSection = some r) : restCredit st = 1 := by
  simp [restCredit, h]

/-- A `reduceCaches` run whose entries declare `:rest:` at least twice in
total (counting an already-recorded target) fails with the fatal error. -/
theorem reduceCaches_dup_rest {g : GlobLib} {cfg : PluginCfg} :
    ∀ (ks : List (String × Option (List String))) (st : PartState),
      2 ≤ totalRest ks + restCredit st →
      reduceCaches g cfg ks st = .error restErr := by
  intro ks
  induction ks with
  | nil =>
    intro st h
    have h1 := restCredit_le_one st
    simp [totalRest] at h
    omega
  | cons p ks ih =>
    intro st h
    rw [totalRest_cons] at h
    by_cases hemp : (p.2.getD []).isEmpty
    · have hcount : (p.2.getD []).count restKey = 0 := by
        rw [List.isEmpty_iff] at hemp
        rw [hemp]
        rfl
      simp only [reduceCaches, if_pos hemp]
      apply ih
      omega
    · simp only [reduceCaches, if_neg hemp]
      rcases Nat.lt_or_ge ((p.2.getD []).count restKey) 2 with hlt | hge
      · cases hps : processSelectors g cfg p.1 (p.2.getD []) [] st with
        | error e =>
          rw [processSelectors_error_elim _ hps]
        | ok pr =>
          obtain ⟨res, st1⟩ := pr
          have hbound2 : 2 ≤ totalRest ks + restCredit st1 := by
            cases hc : (p.2.getD []).count restKey with
            | zero =>
              have hnm : restKey ∉ p.2.getD [] := List.count_eq_zero.mp hc
              have := processSelectors_rest_pres _ hps hnm
              have hcr : restCredit st1 = restCredit st := by
                simp [restCredit, this]
              omega
            | succ n =>
              have hmem : restKey ∈ p.2.getD [] := by
                by_contra hnm
                rw [List.count_eq_zero_of_not_mem hnm] at hc
                cases hc
              have hnone : st.restSection = none := by
                cases hrs : st.restSection with
                | none => rfl
                | some r =>
                  have := @processSelectors_dup_err g cfg p.1 (p.2.getD []) [] st r hrs hmem
                  rw [this] at hps
                  cases hps
              have hcr0 : restCredit st = 0 := by simp [restCredit, hnone]
              have hisSome := processSelectors_rest_set _ hps hmem
              have hcr1 : restCredit st1 = 1 := by simp [restCredit, hisSome]
              omega
          simp only [ih st1 hbound2]
      · have := @processSelectors_two_err g cfg p.1 (p.2.getD []) [] st hge
        rw [this]

theorem reduceCachesRaw_count {g : GlobLib} {cfg : PluginCfg} (a : String) :
    ∀ (ks : List (String × Option (List String))) {st : PartState}
      {bks : List (String × List String)} {st' : PartState},
      reduceCachesRaw g cfg ks st = .ok (bks, st') →
      (∀ p ∈ ks, a ∉ p.2.getD []) →
      st'.pool.count a + (bks.map (fun b => b.2.count a)).sum = st.pool.count a := by
  intro ks
  induction ks with
  | nil =>
    intro st bks st' h _
    simp only [reduceCachesRaw, Except.ok.injEq, Prod.mk.injEq] at h
    obtain ⟨h1, h2⟩ := h
    subst h1; subst h2
    simp
  | cons p ks ih =>
    intro st bks st' h hnot
    have hnp : a ∉ p.2.getD [] := hnot p (List.mem_cons_self _ _)
    have hnks : ∀ q ∈ ks, a ∉ q.2.getD [] :=
      fun q hq => hnot q (List.mem_cons_of_mem _ hq)
    by_cases hemp : (p.2.getD []).isEmpty
    · simp only [reduceCachesRaw, if_pos hemp] at h
      exact ih h hnks
    · simp only [reduceCachesRaw, if_neg hemp] at h
      cases hps : processSelectors g cfg p.1 (p.2.getD []) [] st with
      | error e => simp [hps] at h
      | ok pr =>
        obtain ⟨res, st1⟩ := pr
        simp only [hps] at h
        cases hrr : reduceCachesRaw g cfg ks st1 with
        | error e => simp [hrr] at h
        | ok qr =>
          obtain ⟨tail, st2⟩ := qr
          simp only [hrr, Except.ok.injEq, Prod.mk.injEq] at h
          obtain ⟨h1, h2⟩ := h
          subst h1; subst h2
          have hc1 := processSelectors_count a _ hps hnp
          have hc2 := ih hrr hnks
          simp only [List.map_cons, List.sum_cons]
          simp only [List.count_nil] at hc1
          omega

theorem reduceCachesRaw_mem {g : GlobLib} {cfg : PluginCfg} :
    ∀ (ks : List (String × Option (List String))) {st : PartState}
      {bks : List (String × List String)} {st' : PartState},
      reduceCachesRaw g cfg ks st = .ok (bks, st') →
      ∀ q ∈ bks, ∃ e, (q.1, e) ∈ ks ∧ ∀ x ∈ q.2, x ∈ st.pool ∨ x ∈ e.getD [] := by
  intro ks
  induction ks with
  | nil =>
    intro st bks st' h q hq
    simp only [reduceCachesRaw, Except.ok.injEq, Prod.mk.injEq] at h
    rw [← h.1] at hq
    cases hq
  | cons p ks ih =>
    intro st bks st' h q hq
    by_cases hemp : (p.2.getD []).isEmpty
    · simp only [reduceCachesRaw, if_pos hemp] at h
      obtain ⟨e, he, hall⟩ := ih h q hq
      exact ⟨e, List.mem_cons_of_mem _ he, hall⟩
    · simp only [reduceCachesRaw, if_neg hemp] at h
      cases hps : processSelectors g cfg p.1 (p.2.getD []) [] st with
      | error e => simp [hps] at h
      | ok pr =>
        obtain ⟨res, st1⟩ := pr
        simp only [hps] at h
        cases hrr : reduceCachesRaw g cfg ks st1 with
        | error e => simp [hrr] at h
        | ok qr =>
          obtain ⟨tail, st2⟩ := qr
          simp only [hrr, Except.ok.injEq, Prod.mk.injEq] at h
          obtain ⟨h1, h2⟩ := h
          subst h1; subst h2
          rcases List.mem_cons.mp hq with hq1 | hq1
          · subst hq1
            refine ⟨p.2, by simp, ?_⟩
            intro x hx
            rcases processSelectors_mem _ hps hx with hmem | hmem | hmem
            · cases hmem
            · exact Or.inl hmem
            · exact Or.inr hmem
          · obtain ⟨e, he, hall⟩ := ih hrr q hq1
            refine ⟨e, List.mem_cons_of_mem _ he, ?_⟩
            intro x hx
            rcases hall x hx with hx1 | hx1
            · exact Or.inl (processSelectors_pool _ hps hx1)
            · exact Or.inr hx1

theorem reduceCachesRaw_rest_pres {g : GlobLib} {cfg : PluginCfg} :
    ∀ (ks : List (String × Option (List String))) {st : PartState}
      {bks : List (String × List String)} {st' : PartState},
      reduceCachesRaw g cfg ks st = .ok (bks, st') →
      (∀ p ∈ ks, restKey ∉ p.2.getD []) →
      st'.restSection = st.restSection := by
  intro ks
  induction ks with
  | nil =>
    intro st bks st' h _
    simp only [reduceCachesRaw, Except.ok.injEq, Prod.mk.injEq] at h
    rw [← h.2]
  | cons p ks ih =>
    intro st bks st' h hnot
    by_cases hemp : (p.2.getD []).isEmpty
    · simp only [reduceCachesRaw, if_pos hemp] at h
      exact ih h (fun q hq => hnot q (List.mem_cons_of_mem _ hq))
    · simp only [reduceCachesRaw, if_neg hemp] at h
      cases hps : processSelectors g cfg p.1 (p.2.getD []) [] st with
      | error e => simp [hps] at h
      | ok pr =>
        obtain ⟨res, st1⟩ := pr
        simp only [hps] at h
        cases hrr : reduceCachesRaw g cfg ks st1 with
        | error e => simp [hrr] at h
        | ok qr =>
          obtain ⟨tail, st2⟩ := qr
          simp only [hrr, Except.ok.injEq, Prod.mk.injEq] at h
          rw [← h.2]
          rw [ih hrr (fun q hq => hnot q (List.mem_cons_of_mem _ hq))]
          exact processSelectors_rest_pres _ hps (hnot p (List.mem_cons_self _ _))

theorem reduceCaches_keys {g : GlobLib} {cfg : PluginCfg} :
    ∀ (ks : List (String × Option (List String))) {st : PartState}
      {bks : List (String × List String)} {st' : PartState},
      reduceCaches g cfg ks st = .ok (bks, st') →
      bks.map Prod.fst =
        (ks.filter (fun p => !((p.2.getD []).isEmpty))).map Prod.fst := by
  intro ks
  induction ks with
  | nil =>
    intro st bks st' h
    simp only [reduceCaches, Except.ok.injEq, Prod.mk.injEq] at h
    rw [← h.1]
    simp
  | cons p ks ih =>
    intro st bks st' h
    by_cases hemp : (p.2.getD []).isEmpty
    · simp only [reduceCaches, if_pos hemp] at h
      rw [List.filter_cons_of_neg (by simp [hemp])]
      exact ih h
    · simp only [reduceCaches, if_neg hemp] at h
      cases hps : processSelectors g cfg p.1 (p.2.getD []) [] st with
      | error e => simp [hps] at h
      | ok pr =>
        obtain ⟨res, st1⟩ := pr
        simp only [hps] at h
        cases hrr : reduceCaches g cfg ks st1 with
        | error e => simp [hrr] at h
        | ok qr =>
          obtain ⟨tail, st2⟩ := qr
          simp only [hrr, Except.ok.injEq, Prod.mk.injEq] at h
          rw [← h.1]
          rw [List.filter_cons_of_pos (by simp [hemp])]
          simp only [List.map_cons]
          rw [ih hrr]

theorem assocConcat_keys (l : List (String × List String)) (k : String)
    (v : List String) :
    (assocConcat l k v).map Prod.fst = l.map Prod.fst := by
  unfold assocConcat
  rw [List.map_map]
  apply List.map_congr_left
  intro p _
  simp only [Function.comp_apply]
  split <;> rfl

theorem assocConcat_mem {l : List (String × List String)} {k : String}
    {v : List String} {q : String × List String} (hq : q ∈ assocConcat l k v) :
    ∃ p ∈ l, q.2 = p.2 ∨ q.2 = p.2 ++ v := by
  unfold assocConcat at hq
  rcases List.mem_map.mp hq with ⟨p, hp, hpq⟩
  refine ⟨p, hp, ?_⟩
  rw [← hpq]
  split
  · exact Or.inr rfl
  · exact Or.inl rfl

theorem totalRest_specPairs (c : CacheSpec) :
    totalRest (specPairs c) = (allSels c).count restKey := by
  simp [totalRest, specPairs, allSels, List.count_append]

theorem mem_specPairs_sels {c : CacheSpec} {p : String × Option (List String)}
    (hp : p ∈ specPairs c) : ∀ x ∈ p.2.getD [], x ∈ allSels c := by
  intro x hx
  simp only [specPairs, List.mem_cons, List.not_mem_nil, or_false] at hp
  simp only [allSels, List.mem_append]
  rcases hp with h | h | h <;> rw [h] at hx
  · exact Or.inl (Or.inl hx)
  · exact Or.inl (Or.inr hx)
  · exact Or.inr hx

theorem mem_specPairs_selsOf {c : CacheSpec} {k : String} {e : Option (List String)}
    (h : (k, e) ∈ specPairs c) : e.getD [] = selsOf c k := by
  simp only [specPairs, List.mem_cons, List.not_mem_nil, or_false,
    Prod.mk.injEq] at h
  rcases h with ⟨h1, h2⟩ | ⟨h1, h2⟩ | ⟨h1, h2⟩ <;> subst h1 <;> subst h2 <;>
    simp [selsOf]

theorem applyExcludes_sublist (g : GlobLib) (ex : Option (List String))
    (assets : List String) : List.Sublist (applyExcludes g ex assets) assets := by
  cases ex with
  | none => exact List.Sublist.refl _
  | some l =>
    by_cases hemp : l.isEmpty
    · simp only [applyExcludes, if_pos hemp]
      exact List.Sublist.refl _
    · simp only [applyExcludes, if_neg hemp]
      exact List.filter_sublist _

theorem applyExcludes_not_mem {g : GlobLib} {exl assets : List String}
    {a pat : String} (hpat : pat ∈ exl) (hm : g.mmatch a pat = true) :
    a ∉ applyExcludes g (some exl) assets := by
  intro hmem
  simp only [applyExcludes] at hmem
  have hne : exl.isEmpty = false := by
    cases exl with
    | nil => cases hpat
    | cons hd tl => rfl
  rw [if_neg (by simp [hne])] at hmem
  have hpred := List.of_mem_filter hmem
  simp only [Bool.not_eq_true'] at hpred
  rw [List.any_eq_false] at hpred
  exact absurd hm (by simpa using hpred pat hpat)

theorem stripLeadingSlash_slash_append (x : String) :
    stripLeadingSlash ("/" ++ x) = x := by
  obtain ⟨l⟩ := x
  rfl

theorem applySelector_missing_warns {g : GlobLib} {cfg : PluginCfg} {key : String}
    {st : PartState} {acc : List String} {ck : String}
    (hm : g.hasMagic ck = none) (hr : ck ≠ restKey) (hp : ck ∉ st.pool)
    (hext : ck ∉ cfg.externals) :
    applySelector g cfg key st acc ck =
      .ok (acc ++ [ck], { st with warnings := st.warnings ++ [assetWarning ck] }) := by
  unfold applySelector
  rw [if_neg hr, hm, if_neg hp]
  have hno : ¬(cfg.externals ≠ [] ∧ ck ∈ cfg.externals) := fun hh => hext hh.2
  rw [if_neg hno]

theorem applySelector_missing_external {g : GlobLib} {cfg : PluginCfg} {key : String}
    {st : PartState} {acc : List String} {ck : String}
    (hm : g.hasMagic ck = none) (hr : ck ≠ restKey) (hp : ck ∉ st.pool)
    (hext : ck ∈ cfg.externals) :
    applySelector g cfg key st acc ck = .ok (acc ++ [ck], st) := by
  unfold applySelector
  rw [if_neg hr, hm, if_neg hp]
  have hne : cfg.externals ≠ [] := List.ne_nil_of_mem hext
  rw [if_pos ⟨hne, hext⟩]

/-- C1 (amended): for duplicate-free asset lists and bucket specifications
without the remainder sentinel, every raw bucket element either comes from
the filtered asset pool or occurs as a selector of its own bucket, and an
asset that occurs as a selector in no bucket lands in at most one bucket
(and there at most once): missing-literal passthrough is the only source of
elements outside `assets − excluded` and of cross-bucket duplicates. -/
theorem partitionRaw_noRest_invariant (g : GlobLib) (cfg : PluginCfg) (c : CacheSpec)
    (assets : List String) (bks : List (String × List String)) (stF : PartState)
    (hnodup : assets.Nodup)
    (hcaches : cfg.caches = CachesOpt.spec c)
    (hnorest : restKey ∉ allSels c)
    (hrun : partitionRaw g cfg assets = .ok (bks, stF)) :
    (∀ p ∈ bks, ∀ x ∈ p.2,
        x ∈ applyExcludes g cfg.excludesArr assets ∨ x ∈ selsOf c p.1) ∧
    (∀ a : String, a ∉ allSels c →
        (bks.map (fun p => p.2.count a)).sum ≤ 1) := by
  simp only [partitionRaw, hcaches] at hrun
  cases hrc : reduceCachesRaw g cfg (specPairs c)
      ⟨applyExcludes g cfg.excludesArr assets, none, []⟩ with
  | error e => simp [hrc] at hrun
  | ok pr =>
    obtain ⟨h0, st1⟩ := pr
    simp only [hrc] at hrun
    have hnp : ∀ p ∈ specPairs c, restKey ∉ p.2.getD [] :=
      fun p hp hmem => hnorest (mem_specPairs_sels hp _ hmem)
    have hrs : st1.restSection = none := reduceCachesRaw_rest_pres _ hrc hnp
    simp only [hrs, Except.ok.injEq, Prod.mk.injEq] at hrun
    obtain ⟨h1, _⟩ := hrun
    subst h1
    constructor
    · intro p hp x hx
      obtain ⟨e, he, hall⟩ := reduceCachesRaw_mem _ hrc p hp
      rcases hall x hx with hx1 | hx1
      · exact Or.inl hx1
      · rw [mem_specPairs_selsOf he] at hx1
        exact Or.inr hx1
    · intro a ha
      have hnpa : ∀ p ∈ specPairs c, a ∉ p.2.getD [] :=
        fun p hp hmem => ha (mem_specPairs_sels hp _ hmem)
      have hcount := reduceCachesRaw_count a _ hrc hnpa
      dsimp only at hcount
      have hnodup2 : (applyExcludes g cfg.excludesArr assets).Nodup :=
        List.Nodup.sublist (applyExcludes_sublist g cfg.excludesArr assets) hnodup
      have hle1 : (applyExcludes g cfg.excludesArr assets).count a ≤ 1 :=
        List.nodup_iff_count_le_one.mp hnodup2 a
      omega

/-- C2: two occurrences of `:rest:` anywhere across the three bucket
selector lists make `setAssets` throw the fatal duplicate-sentinel error. -/
theorem setAssets_duplicate_rest_fatal (g : GlobLib) (cfg : PluginCfg) (c : CacheSpec)
    (assets : List String)
    (hcaches : cfg.caches = CachesOpt.spec c)
    (hdup : 2 ≤ (allSels c).count restKey) :
    setAssets g cfg assets = .error restErr := by
  have hred : reduceCaches g cfg (specPairs c)
      ⟨applyExcludes g cfg.excludesArr assets, none, []⟩ = .error restErr := by
    apply reduceCaches_dup_rest
    rw [totalRest_specPairs]
    have hcr : restCredit ⟨applyExcludes g cfg.excludesArr assets, none, []⟩ = 0 := by
      simp [restCredit]
    omega
  simp only [setAssets, hcaches, hred]

/-- C3: a literal selector (no glob magic, not the sentinel) absent from the
remaining pool is appended to the bucket result either way; exactly one
missing-asset warning is emitted unless the name is in the externals list,
in which case the state is untouched. -/
theorem literal_selector_missing_spec (g : GlobLib) (cfg : PluginCfg) (key : String)
    (st : PartState) (acc : List String) (ck : String)
    (hm : g.hasMagic ck = none) (hr : ck ≠ restKey) (hp : ck ∉ st.pool) :
    (ck ∉ cfg.externals →
      applySelector g cfg key st acc ck =
        .ok (acc ++ [ck], { st with warnings := st.warnings ++ [assetWarning ck] })) ∧
    (ck ∈ cfg.externals →
      applySelector g cfg key st acc ck = .ok (acc ++ [ck], st)) :=
  ⟨fun h => applySelector_missing_warns hm hr hp h,
   fun h => applySelector_missing_external hm hr hp h⟩

/-- C6 (amended): normalization is idempotent in non-relative mode when the
configured scope is the root `/` (the default); for other scopes
re-normalizing prepends the scope again. -/
theorem normalizePath_idempotent_rootScope (cfg : PluginCfg)
    (h1 : cfg.relativePaths = false) (h2 : cfg.scope = "/") (s : String) :
    normalizePath cfg (normalizePath cfg s) = normalizePath cfg s := by
  simp only [normalizePath, h1, h2, Bool.false_eq_true, if_false]
  rw [stripLeadingSlash_slash_append]

/-- C7 (amended): an asset matching an exclude pattern is removed before
partitioning and appears in no raw bucket, provided it does not itself occur
as a selector (a literal selector naming it would re-append it as a
missing-literal passthrough). -/
theorem excluded_asset_not_in_buckets (g : GlobLib) (cfg : PluginCfg) (c : CacheSpec)
    (assets exl : List String) (pat a : String)
    (bks : List (String × List String)) (stF : PartState)
    (hcaches : cfg.caches = CachesOpt.spec c)
    (hex : cfg.excludesArr = some exl)
    (hpat : pat ∈ exl)
    (hmatch : g.mmatch a pat = true)
    (hnosel : a ∉ allSels c)
    (hrun : partitionRaw g cfg assets = .ok (bks, stF)) :
    ∀ p ∈ bks, a ∉ p.2 := by
  simp only [partitionRaw, hcaches, hex] at hrun
  have hnotmem : a ∉ applyExcludes g (some exl) assets :=
    applyExcludes_not_mem hpat hmatch
  have hzero : (applyExcludes g (some exl) assets).count a = 0 :=
    List.count_eq_zero.mpr hnotmem
  cases hrc : reduceCachesRaw g cfg (specPairs c)
      ⟨applyExcludes g (some exl) assets, none, []⟩ with
  | error e => simp [hrc] at hrun
  | ok pr =>
    obtain ⟨h0, st1⟩ := pr
    simp only [hrc] at hrun
    have hnpa : ∀ p ∈ specPairs c, a ∉ p.2.getD [] :=
      fun p hp hmem => hnosel (mem_specPairs_sels hp _ hmem)
    have hcount := reduceCachesRaw_count a _ hrc hnpa
    rw [hzero] at hcount
    have hpool0 : st1.pool.count a = 0 := by omega
    have hsum0 : (h0.map (fun b => b.2.count a)).sum = 0 := by omega
    have hbuck0 : ∀ q ∈ h0, a ∉ q.2 := by
      intro q hq
      have hq0 : q.2.count a = 0 :=
        (List.sum_eq_zero_iff.mp hsum0) _ (List.mem_map_of_mem _ hq)
      exact List.count_eq_zero.mp hq0
    have hnpool : a ∉ st1.pool := List.count_eq_zero.mp hpool0
    cases hrs : st1.restSection with
    | none =>
      simp only [hrs, Except.ok.injEq, Prod.mk.injEq] at hrun
      obtain ⟨h1, _⟩ := hrun
      subst h1
      exact hbuck0
    | some rk =>
      simp only [hrs] at hrun
      by_cases hpool : st1.pool.isEmpty
      · rw [if_pos hpool] at hrun
        simp only [Except.ok.injEq, Prod.mk.injEq] at hrun
        obtain ⟨h1, _⟩ := hrun
        subst h1
        exact hbuck0
      · rw [if_neg hpool] at hrun
        simp only [Except.ok.injEq, Prod.mk.injEq] at hrun
        obtain ⟨h1, _⟩ := hrun
        subst h1
        intro p hp
        obtain ⟨q, hq, hcase⟩ := assocConcat_mem hp
        have hnq := hbuck0 q hq
        rcases hcase with hc | hc <;> rw [hc]
        · exact hnq
        · intro hmm
          rcases List.mem_append.mp hmm with hmm | hmm
          · exact hnq hmm
          · exact hnpool hmm

/-- C8: an empty (falsy) scope forces relative-path mode at construction
even with `relativePaths: false`: the resulting configuration has
`relativePaths = true`, an empty scope, and its normalization only strips a
leading separator, never prepending a prefix. -/
theorem emptyScope_relative_mode (o : Options) (cfg : PluginCfg)
    (hscope : o.scope = "") (hrel : o.relativePaths = false)
    (hok : mkPlugin o = .ok cfg) :
    cfg.relativePaths = true ∧ cfg.scope = "" ∧
    ∀ s, normalizePath cfg s = stripLeadingSlash s := by
  unfold mkPlugin at hok
  rw [hscope, hrel] at hok
  simp only [beq_self_eq_true, Bool.true_or, if_true] at hok
  split at hok
  · simp at hok
  · split at hok
    · simp at hok
    · simp only [Except.ok.injEq] at hok
      subst hok
      refine ⟨rfl, rfl, fun s => ?_⟩
      simp [normalizePath]

/-- C9: a non-array `externals` value does not fail construction: the
externals list becomes `[]`, so every literal selector absent from the pool
takes the missing-asset warning path. -/
theorem externals_nonarray_defaults (o : Options)
    (hext : o.externalsArr = none)
    (hstrat : updateStrategies.contains o.updateStrategy = true)
    (htools : (o.serviceWorker || o.appCache) = true) :
    (mkPlugin o).isOk = true ∧
    ∀ cfg, mkPlugin o = .ok cfg →
      cfg.externals = [] ∧
      ∀ (g : GlobLib) (key : String) (st : PartState) (acc : List String) (ck : String),
        g.hasMagic ck = none → ck ≠ restKey → ck ∉ st.pool →
        applySelector g cfg key st acc ck =
          .ok (acc ++ [ck], { st with warnings := st.warnings ++ [assetWarning ck] }) := by
  obtain ⟨cfg0, hcfg0, hext0⟩ : ∃ cfg0, mkPlugin o = .ok cfg0 ∧ cfg0.externals = [] := by
    unfold mkPlugin
    rw [hext]
    have hmem : o.updateStrategy ∈ updateStrategies := by simpa using hstrat
    simp [hmem, htools]
  refine ⟨by rw [hcfg0]; rfl, ?_⟩
  intro cfg hcfg
  rw [hcfg0] at hcfg
  simp only [Except.ok.injEq] at hcfg
  subst hcfg
  refine ⟨hext0, ?_⟩
  intro g key st acc ck hm hr hp
  apply applySelector_missing_warns hm hr hp
  rw [hext0]
  simp

/-- C10: in non-simplified mode a bucket key is present in the final map
iff its selector entry is a non-empty array (absent or non-array entries
are skipped entirely; a non-empty selector list keeps its key even when the
resulting list is empty). -/
theorem bucket_key_presence (g : GlobLib) (cfg : PluginCfg) (c : CacheSpec)
    (assets : List String) (handled : List (String × List String)) (st : PartState)
    (hcaches : cfg.caches = CachesOpt.spec c)
    (hrun : setAssets g cfg assets = .ok (handled, st)) :
    ∀ key ∈ (["main", "additional", "optional"] : List String),
      (key ∈ handled.map Prod.fst ↔ selsOf c key ≠ []) := by
  simp only [setAssets, hcaches] at hrun
  cases hrc : reduceCaches g cfg (specPairs c)
      ⟨applyExcludes g cfg.excludesArr assets, none, []⟩ with
  | error e => simp [hrc] at hrun
  | ok pr =>
    obtain ⟨h0, st1⟩ := pr
    simp only [hrc] at hrun
    have hkeys := reduceCaches_keys _ hrc
    have hmap : handled.map Prod.fst = h0.map Prod.fst := by
      cases hrs : st1.restSection with
      | none =>
        simp only [hrs, Except.ok.injEq, Prod.mk.injEq] at hrun
        rw [← hrun.1]
      | some rk =>
        simp only [hrs] at hrun
        by_cases hpool : st1.pool.isEmpty
        · rw [if_pos hpool] at hrun
          simp only [Except.ok.injEq, Prod.mk.injEq] at hrun
          rw [← hrun.1]
        · rw [if_neg hpool] at hrun
          simp only [Except.ok.injEq, Prod.mk.injEq] at hrun
          rw [← hrun.1]
          exact assocConcat_keys _ _ _
    intro key hkey
    rw [hmap, hkeys]
    simp only [List.mem_cons, List.not_mem_nil, or_false] at hkey
    by_cases hm : c.main.getD [] = [] <;>
      by_cases ha : c.additional.getD [] = [] <;>
        by_cases ho : c.optional.getD [] = [] <;>
          rcases hkey with h | h | h <;> subst h <;>
            simp [specPairs, selsOf, List.isEmpty_iff, hm, ha, ho]

/-- C1 counterexample: with assets `["a.js"]`, no excludes, and the bucket
specification `{main: ["a.js", "b.js"], additional: ["a.js"]}` (no remainder
sentinel), the raw buckets are `main = ["a.js", "b.js"]`,
`additional = ["a.js"]`: `"b.js"` is not an input asset (subset part fails)
and `"a.js"` appears in two different buckets, so the claim as stated is
false at this input. -/
theorem partitionRaw_subset_counterexample :
    cachesOf (partitionRaw miniGlob
        ⟨"/", false, [], RewriteRule.fn defaultRewrite,
          CachesOpt.spec ⟨some ["a.js", "b.js"], some ["a.js"], none⟩, some []⟩
        ["a.js"]) =
      .ok [("main", ["a.js", "b.js"]), ("additional", ["a.js"])] ∧
    ¬ (∀ p ∈ ([("main", ["a.js", "b.js"]), ("additional", ["a.js"])] :
          List (String × List String)),
        ∀ x ∈ p.2, x ∈ (["a.js"] : List String)) ∧
    "a.js" ∈ (["a.js", "b.js"] : List String) ∧
    "a.js" ∈ (["a.js"] : List String) :=
  ⟨rfl, by decide, by decide, by decide⟩

/-- C1 witness: a concrete no-sentinel run on which the amended invariant
theorem applies. -/
theorem partitionRaw_noRest_invariant_witness :
    (["a.js", "b.css"] : List String).Nodup ∧
    (⟨"/", false, [], RewriteRule.fn defaultRewrite,
        CachesOpt.spec ⟨some ["a.js"], some ["b.css"], none⟩, some []⟩ :
      PluginCfg).caches = CachesOpt.spec ⟨some ["a.js"], some ["b.css"], none⟩ ∧
    restKey ∉ allSels ⟨some ["a.js"], some ["b.css"], none⟩ ∧
    partitionRaw miniGlob
        ⟨"/", false, [], RewriteRule.fn defaultRewrite,
          CachesOpt.spec ⟨some ["a.js"], some ["b.css"], none⟩, some []⟩
        ["a.js", "b.css"] =
      .ok ([("main", ["a.js"]), ("additional", ["b.css"])], ⟨[], none, []⟩) ∧
    ((∀ p ∈ ([("main", ["a.js"]), ("additional", ["b.css"])] :
          List (String × List String)),
        ∀ x ∈ p.2,
          x ∈ applyExcludes miniGlob (some []) ["a.js", "b.css"] ∨
            x ∈ selsOf ⟨some ["a.js"], some ["b.css"], none⟩ p.1) ∧
      (∀ a : String, a ∉ allSels ⟨some ["a.js"], some ["b.css"], none⟩ →
        (([("main", ["a.js"]), ("additional", ["b.css"])] :
            List (String × List String)).map (fun p => p.2.count a)).sum ≤ 1)) :=
  ⟨by decide, rfl, by decide, rfl,
    partitionRaw_noRest_invariant miniGlob
      ⟨"/", false, [], RewriteRule.fn defaultRewrite,
        CachesOpt.spec ⟨some ["a.js"], some ["b.css"], none⟩, some []⟩
      ⟨some ["a.js"], some ["b.css"], none⟩
      ["a.js", "b.css"]
      [("main", ["a.js"]), ("additional", ["b.css"])] ⟨[], none, []⟩
      (by decide) rfl (by decide) rfl⟩

/-- C2 witness: `:rest:` once in `main` and once in `additional` makes
`setAssets` fail with the fatal duplicate-sentinel error. -/
theorem setAssets_duplicate_rest_fatal_witness :
    (⟨"/", false, [], RewriteRule.fn defaultRewrite,
        CachesOpt.spec ⟨some [":rest:"], some [":rest:"], none⟩, some []⟩ :
      PluginCfg).caches = CachesOpt.spec ⟨some [":rest:"], some [":rest:"], none⟩ ∧
    2 ≤ (allSels ⟨some [":rest:"], some [":rest:"], none⟩).count restKey ∧
    setAssets miniGlob
        ⟨"/", false, [], RewriteRule.fn defaultRewrite,
          CachesOpt.spec ⟨some [":rest:"], some [":rest:"], none⟩, some []⟩ [] =
      .error restErr :=
  ⟨rfl, by decide,
    setAssets_duplicate_rest_fatal miniGlob
      ⟨"/", false, [], RewriteRule.fn defaultRewrite,
        CachesOpt.spec ⟨some [":rest:"], some [":rest:"], none⟩, some []⟩
      ⟨some [":rest:"], some [":rest:"], none⟩ [] rfl (by decide)⟩

/-- C3 witness: the literal `missing.js` against a pool `["app.js"]` with
externals `["ext.js"]`. -/
theorem literal_selector_missing_spec_witness :
    miniGlob.hasMagic "missing.js" = none ∧
    "missing.js" ≠ restKey ∧
    "missing.js" ∉ (⟨["app.js"], none, []⟩ : PartState).pool ∧
    (("missing.js" ∉
        (⟨"/", false, ["ext.js"], RewriteRule.fn defaultRewrite,
            CachesOpt.all, some []⟩ : PluginCfg).externals →
      applySelector miniGlob
          ⟨"/", false, ["ext.js"], RewriteRule.fn defaultRewrite,
            CachesOpt.all, some []⟩ "main" ⟨["app.js"], none, []⟩ [] "missing.js" =
        .ok ([] ++ ["missing.js"],
          { (⟨["app.js"], none, []⟩ : PartState) with
              warnings := (⟨["app.js"], none, []⟩ : PartState).warnings ++
                [assetWarning "missing.js"] })) ∧
     ("missing.js" ∈
        (⟨"/", false, ["ext.js"], RewriteRule.fn defaultRewrite,
            CachesOpt.all, some []⟩ : PluginCfg).externals →
      applySelector miniGlob
          ⟨"/", false, ["ext.js"], RewriteRule.fn defaultRewrite,
            CachesOpt.all, some []⟩ "main" ⟨["app.js"], none, []⟩ [] "missing.js" =
        .ok ([] ++ ["missing.js"], ⟨["app.js"], none, []⟩))) :=
  ⟨rfl, by decide, by decide,
    literal_selector_missing_spec miniGlob
      ⟨"/", false, ["ext.js"], RewriteRule.fn defaultRewrite, CachesOpt.all, some []⟩
      "main" ⟨["app.js"], none, []⟩ [] "missing.js" rfl (by decide) (by decide)⟩

/-- C4 counterexample: Simplified Mode with excludes `["*.map"]` on
`["app.js", "app.js.map", "index.html"]` under the default configuration
yields `main = ["/app.js", "/"]`, not the claimed `["app.js", "/"]` — the
non-relative default prepends the scope `/` to `app.js`. -/
theorem setAssets_simplified_example_counterexample :
    cachesOf (setAssets miniGlob
        ⟨"/", false, [], RewriteRule.fn defaultRewrite, CachesOpt.all, some ["*.map"]⟩
        ["app.js", "app.js.map", "index.html"]) ≠
      .ok [("main", ["app.js", "/"])] := by decide

/-- C4 (amended): the run produces `main = ["/app.js", "/"]`. -/
theorem setAssets_simplified_example :
    cachesOf (setAssets miniGlob
        ⟨"/", false, [], RewriteRule.fn defaultRewrite, CachesOpt.all, some ["*.map"]⟩
        ["app.js", "app.js.map", "index.html"]) =
      .ok [("main", ["/app.js", "/"])] := rfl

/-- C5 counterexample: the bucket specification
`{main: ["app.js"], additional: [":rest:"]}` on
`["app.js", "vendor.js", "style.css"]` under the default configuration does
not produce the claimed unprefixed lists — the default scope `/` is
prepended to every path. -/
theorem setAssets_rest_example_counterexample :
    cachesOf (setAssets miniGlob
        ⟨"/", false, [], RewriteRule.fn defaultRewrite,
          CachesOpt.spec ⟨some ["app.js"], some [":rest:"], none⟩, some []⟩
        ["app.js", "vendor.js", "style.css"]) ≠
      .ok [("main", ["app.js"]), ("additional", ["vendor.js", "style.css"])] := by
  decide

/-- C5 (amended): the run produces `main = ["/app.js"]`,
`additional = ["/vendor.js", "/style.css"]`, in that order. -/
theorem setAssets_rest_example :
    cachesOf (setAssets miniGlob
        ⟨"/", false, [], RewriteRule.fn defaultRewrite,
          CachesOpt.spec ⟨some ["app.js"], some [":rest:"], none⟩, some []⟩
        ["app.js", "vendor.js", "style.css"]) =
      .ok [("main", ["/app.js"]), ("additional", ["/vendor.js", "/style.css"])] := rfl

/-- C6 counterexample: with the constructor-normalized scope `foo/`
(non-relative mode), normalizing `a` gives `foo/a` and normalizing again
gives `foo/foo/a`, so normalization is not idempotent for every
configuration. -/
theorem normalizePath_not_idempotent :
    normalizePath
        ⟨"foo/", false, [], RewriteRule.fn defaultRewrite, CachesOpt.all, some []⟩
        (normalizePath
          ⟨"foo/", false, [], RewriteRule.fn defaultRewrite, CachesOpt.all, some []⟩
          "a") ≠
      normalizePath
        ⟨"foo/", false, [], RewriteRule.fn defaultRewrite, CachesOpt.all, some []⟩
        "a" := by decide

/-- C6 witness: idempotence at the default root scope on `a`. -/
theorem normalizePath_idempotent_rootScope_witness :
    (⟨"/", false, [], RewriteRule.fn defaultRewrite, CachesOpt.all, some []⟩ :
        PluginCfg).relativePaths = false ∧
    (⟨"/", false, [], RewriteRule.fn defaultRewrite, CachesOpt.all, some []⟩ :
        PluginCfg).scope = "/" ∧
    normalizePath
        ⟨"/", false, [], RewriteRule.fn defaultRewrite, CachesOpt.all, some []⟩
        (normalizePath
          ⟨"/", false, [], RewriteRule.fn defaultRewrite, CachesOpt.all, some []⟩
          "a") =
      normalizePath
        ⟨"/", false, [], RewriteRule.fn defaultRewrite, CachesOpt.all, some []⟩
        "a" :=
  ⟨rfl, rfl,
    normalizePath_idempotent_rootScope
      ⟨"/", false, [], RewriteRule.fn defaultRewrite, CachesOpt.all, some []⟩
      rfl rfl "a"⟩

/-- C7 counterexample: `a.map` matches the exclude pattern `*.map`, yet the
literal selector `a.map` re-appends it, so the excluded asset does appear in
the `main` bucket. -/
theorem excludes_passthrough_counterexample :
    miniGlob.mmatch "a.map" "*.map" = true ∧
    cachesOf (partitionRaw miniGlob
        ⟨"/", false, [], RewriteRule.fn defaultRewrite,
          CachesOpt.spec ⟨some ["a.map"], none, none⟩, some ["*.map"]⟩
        ["a.map", "b.js"]) =
      .ok [("main", ["a.map"])] ∧
    "a.map" ∈ (["a.map"] : List String) :=
  ⟨rfl, rfl, by decide⟩

/-- C7 witness: the excluded `a.map` is not a selector and lands in no
bucket. -/
theorem excluded_asset_not_in_buckets_witness :
    (⟨"/", false, [], RewriteRule.fn defaultRewrite,
        CachesOpt.spec ⟨some ["b.js"], none, none⟩, some ["*.map"]⟩ :
      PluginCfg).caches = CachesOpt.spec ⟨some ["b.js"], none, none⟩ ∧
    (⟨"/", false, [], RewriteRule.fn defaultRewrite,
        CachesOpt.spec ⟨some ["b.js"], none, none⟩, some ["*.map"]⟩ :
      PluginCfg).excludesArr = some ["*.map"] ∧
    "*.map" ∈ (["*.map"] : List String) ∧
    miniGlob.mmatch "a.map" "*.map" = true ∧
    "a.map" ∉ allSels ⟨some ["b.js"], none, none⟩ ∧
    partitionRaw miniGlob
        ⟨"/", false, [], RewriteRule.fn defaultRewrite,
          CachesOpt.spec ⟨some ["b.js"], none, none⟩, some ["*.map"]⟩
        ["a.map", "b.js"] =
      .ok ([("main", ["b.js"])], ⟨[], none, []⟩) ∧
    ∀ p ∈ ([("main", ["b.js"])] : List (String × List String)), "a.map" ∉ p.2 :=
  ⟨rfl, rfl, by decide, rfl, by decide, rfl,
    excluded_asset_not_in_buckets miniGlob
      ⟨"/", false, [], RewriteRule.fn defaultRewrite,
        CachesOpt.spec ⟨some ["b.js"], none, none⟩, some ["*.map"]⟩
      ⟨some ["b.js"], none, none⟩
      ["a.map", "b.js"] ["*.map"] "*.map" "a.map"
      [("main", ["b.js"])] ⟨[], none, []⟩
      rfl rfl (by decide) rfl (by decide) rfl⟩

/-- C8 witness: the default options with scope `""`. -/
theorem emptyScope_relative_mode_witness :
    ({ defaultOptions with scope := "" } : Options).scope = "" ∧
    ({ defaultOptions with scope := "" } : Options).relativePaths = false ∧
    mkPlugin { defaultOptions with scope := "" } =
      .ok ⟨"", true, [], RewriteRule.fn defaultRewrite, CachesOpt.all, some []⟩ ∧
    ((⟨"", true, [], RewriteRule.fn defaultRewrite, CachesOpt.all, some []⟩ :
        PluginCfg).relativePaths = true ∧
     (⟨"", true, [], RewriteRule.fn defaultRewrite, CachesOpt.all, some []⟩ :
        PluginCfg).scope = "" ∧
     ∀ s, normalizePath
         ⟨"", true, [], RewriteRule.fn defaultRewrite, CachesOpt.all, some []⟩ s =
       stripLeadingSlash s) :=
  ⟨rfl, rfl, rfl,
    emptyScope_relative_mode { defaultOptions with scope := "" }
      ⟨"", true, [], RewriteRule.fn defaultRewrite, CachesOpt.all, some []⟩
      rfl rfl rfl⟩

/-- C9 witness: the default options with a non-array `externals`. -/
theorem externals_nonarray_defaults_witness :
    ({ defaultOptions with externalsArr := none } : Options).externalsArr = none ∧
    updateStrategies.contains
        ({ defaultOptions with externalsArr := none } : Options).updateStrategy = true ∧
    (({ defaultOptions with externalsArr := none } : Options).serviceWorker ||
        ({ defaultOptions with externalsArr := none } : Options).appCache) = true ∧
    ((mkPlugin { defaultOptions with externalsArr := none }).isOk = true ∧
     ∀ cfg, mkPlugin { defaultOptions with externalsArr := none } = .ok cfg →
       cfg.externals = [] ∧
       ∀ (g : GlobLib) (key : String) (st : PartState) (acc : List String) (ck : String),
         g.hasMagic ck = none → ck ≠ restKey → ck ∉ st.pool →
         applySelector g cfg key st acc ck =
           .ok (acc ++ [ck],
             { st with warnings := st.warnings ++ [assetWarning ck] })) :=
  ⟨rfl, rfl, rfl,
    externals_nonarray_defaults { defaultOptions with externalsArr := none }
      rfl rfl rfl⟩

/-- C10 witness: `main = ["*.zzz"]` (non-empty, matches nothing) keeps its
key with an empty list; `additional` (absent) and `optional` (empty array)
are omitted. -/
theorem bucket_key_presence_witness :
    (⟨"/", false, [], RewriteRule.fn defaultRewrite,
        CachesOpt.spec ⟨some ["*.zzz"], none, some []⟩, some []⟩ :
      PluginCfg).caches = CachesOpt.spec ⟨some ["*.zzz"], none, some []⟩ ∧
    setAssets miniGlob
        ⟨"/", false, [], RewriteRule.fn defaultRewrite,
          CachesOpt.spec ⟨some ["*.zzz"], none, some []⟩, some []⟩
        ["a.js"] =
      .ok ([("main", [])], ⟨["a.js"], none, [patternWarning "*.zzz"]⟩) ∧
    ∀ key ∈ (["main", "additional", "optional"] : List String),
      (key ∈ ([("main", [])] : List (String × List String)).map Prod.fst ↔
        selsOf ⟨some ["*.zzz"], none, some []⟩ key ≠ []) :=
  ⟨rfl, rfl,
    bucket_key_presence miniGlob
      ⟨"/", false, [], RewriteRule.fn defaultRewrite,
        CachesOpt.spec ⟨some ["*.zzz"], none, some []⟩, some []⟩
      ⟨some ["*.zzz"], none, some []⟩
      ["a.js"] [("main", [])] ⟨["a.js"], none, [patternWarning "*.zzz"]⟩
      rfl rfl⟩

end Offline
